import Mathlib

/-!
Verification of travis-size-report against its natural-language specification.

The development shallowly embeds the relevant source files:

* `src/ui/travis.ts` — `basename`, `transformChanges` and
  `TravisFetcher.newlineDelimtedJsonStream` (the report stream transformer);
* `src/ui/infocard-ui.ts` — the pie-chart / breakdown-table computation of
  `ContainerInfocard._updateInfocard` and `_updateBreakdownRow`;
* the page state module (`getSizeContents`, `setSizeClasses`).

JavaScript strings are embedded as `List Char`; JavaScript numbers holding
byte counts and deltas are embedded as `Int` (all arithmetic the code performs
on them is exact integer arithmetic); the quotients computed for pie-chart
percentages are embedded as `ℚ`, with angles recorded as fractions of the full
circle so that an angle of `f` turns denotes `f × 2π` radians.
-/

namespace SizeReport

/-! ## Embedding of `src/ui/travis.ts` -/

/-- JS `path.lastIndexOf(c)`: index of the last occurrence of `c` in `path`,
or `-1` when `c` does not occur.  Helper recursion carrying the current index
and the best match so far. -/
def lastIndexOfAux (c : Char) : List Char → Nat → Int → Int
  | [], _, acc => acc
  | x :: rest, i, acc => lastIndexOfAux c rest (i + 1) (if x = c then (i : Int) else acc)

/-- JS `path.lastIndexOf(c)` starting with index 0 and default result `-1`. -/
def lastIndexOf (c : Char) (path : List Char) : Int :=
  lastIndexOfAux c path 0 (-1)

/-- JS `path.substring(start)` for a single argument: drops the first `start`
characters; a negative `start` is clamped to 0 (as `Int.toNat` does). -/
def substringFrom (path : List Char) (start : Int) : List Char :=
  path.drop start.toNat

/-- `basename` from `src/ui/travis.ts`:
`path.substring(path.lastIndexOf('/') + 1)`. -/
def basename (path : List Char) : List Char :=
  substringFrom path (lastIndexOf '/' path + 1)

/-- `FileData` from `compare-travis` as used by `travis.ts`:
a build artifact with its path, uncompressed size and gzipped size. -/
structure FileData where
  path : List Char
  size : Int
  gzipSize : Int
deriving DecidableEq, Repr

/-- `BuildChanges` as consumed by `transformChanges`: the four classification
groups.  The `changedItems` map from old to new record is embedded as its list
of entries, so `changedItems.size` becomes `changedItems.length`. -/
structure BuildChanges where
  newItems : List FileData
  deletedItems : List FileData
  sameItems : List FileData
  changedItems : List (FileData × FileData)
deriving DecidableEq, Repr

/-- `Meta` from `tree-worker` as constructed here: record count and the
differential-report flag. -/
structure Meta where
  total : Nat
  diff_mode : Bool
deriving DecidableEq, Repr

/-- Modelled from the spec: `_CODE_SYMBOL_TYPE`, the fixed "code"
classification tag imported from `tree-worker` (whose source is not part of
this embedding); its concrete value is irrelevant to every property below. -/
def _CODE_SYMBOL_TYPE : Char := 't'

/-- One element of a `FileEntry`'s `s` array: display name, byte delta,
gzipped-byte delta, type tag and unit multiplier. -/
structure SymbolData where
  n : List Char
  b : Int
  g : Int
  t : Char
  u : Int
deriving DecidableEq, Repr

/-- `FileEntry`: one emitted report record, a path with its symbol list. -/
structure FileEntry where
  p : List Char
  s : List SymbolData
deriving DecidableEq, Repr

/-- The record pushed for an entry of `changes.newItems`. -/
def newEntry (data : FileData) : FileEntry :=
  { p := data.path
    s := [{ n := basename data.path
            b := data.size
            g := data.gzipSize
            t := _CODE_SYMBOL_TYPE
            u := 1 }] }

/-- The record pushed for an entry of `changes.deletedItems`. -/
def deletedEntry (data : FileData) : FileEntry :=
  { p := data.path
    s := [{ n := basename data.path
            b := -data.size
            g := -data.gzipSize
            t := _CODE_SYMBOL_TYPE
            u := -1 }] }

/-- The record pushed for an entry of `changes.sameItems`. -/
def sameEntry (data : FileData) : FileEntry :=
  { p := data.path
    s := [{ n := basename data.path
            b := 0
            g := 0
            t := _CODE_SYMBOL_TYPE
            u := 1 }] }

/-- The record pushed for an entry `[oldData, newData]` of
`changes.changedItems`. -/
def changedEntry (pair : FileData × FileData) : FileEntry :=
  { p := pair.2.path
    s := [{ n := basename pair.2.path
            b := pair.2.size - pair.1.size
            g := pair.2.gzipSize - pair.1.gzipSize
            t := _CODE_SYMBOL_TYPE
            u := 1 }] }

/-- `transformChanges` from `src/ui/travis.ts`: the summary header plus the
entries pushed by the four loops, in their source order (new, deleted, same,
changed). -/
def transformChanges (changes : BuildChanges) : Meta × List FileEntry :=
  let total :=
    changes.newItems.length +
    changes.deletedItems.length +
    changes.sameItems.length +
    changes.changedItems.length
  let meta : Meta := { total := total, diff_mode := true }
  let entries : List FileEntry :=
    changes.newItems.map newEntry ++
    changes.deletedItems.map deletedEntry ++
    changes.sameItems.map sameEntry ++
    changes.changedItems.map changedEntry
  (meta, entries)

/-- An element yielded by `newlineDelimtedJsonStream`: either the header
(`yield meta`) or one record (`yield* entries`). -/
inductive StreamItem where
  | header (m : Meta)
  | record (e : FileEntry)
deriving DecidableEq, Repr

/-- `TravisFetcher.newlineDelimtedJsonStream`, embedded as a function of the
resolver's output.  Modelled from the spec where the resolver is concerned:
`getBuildInfo` (from `compare-travis`, whose source is not part of this
embedding) returns the up-to-`count` most recent completed builds, newest
first, so `buildInfos` below stands for that list — with fewer than two
completed builds it has fewer than two elements.  `getChanges` is likewise
passed in as the diffing collaborator.  The generator either throws before
yielding anything (`Except.error` with the thrown message) or yields the
header followed by every entry (`Except.ok`). -/
def newlineDelimtedJsonStream {β : Type} (buildInfos : List β)
    (getChanges : β → β → BuildChanges) : Except (List Char) (List StreamItem) :=
  let currentBuildInfo := buildInfos.get? 0
  let previousBuildInfo := buildInfos.get? 1
  match previousBuildInfo with
  | none => .error ("Couldn't find previous build info".toList)
  | some prev =>
    match currentBuildInfo with
    | none => .error ("Couldn't find current build info".toList)
    | some cur =>
      let buildChanges := getChanges prev cur
      let (meta, entries) := transformChanges buildChanges
      .ok (StreamItem.header meta :: entries.map StreamItem.record)

/-! ## Embedding of `src/ui/infocard-ui.ts` (`ContainerInfocard`) -/

/-- One value of a `TreeNode.childStats` map: the total signed size and the
symbol count of one symbol type inside the container. -/
structure TypeStats where
  size : Int
  count : Nat
deriving DecidableEq, Repr

/-- `Object.entries(containerNode.childStats).sort((a, b) => b[1].size - a[1].size)`:
the child-stats entries sorted by descending signed size.  The JS comparator
puts `a` before `b` exactly when `b[1].size - a[1].size ≤ 0`; `Array.sort` is
stable, which `List.mergeSort` matches. -/
def statsEntries (childStats : List (Char × TypeStats)) : List (Char × TypeStats) :=
  childStats.mergeSort (fun a b => b.2.size ≤ a.2.size)

/-- The `totalSize` accumulation loop: `totalSize += Math.abs(stats.size)`
over the sorted entries. -/
def totalSize (entries : List (Char × TypeStats)) : Int :=
  entries.foldl (fun acc e => acc + |e.2.size|) 0

/-- One call of `this._drawSlice(angleStart, angleEnd, color)`, abstracted to
the data that determines it.  Angles are stored as fractions of the full
circle: a stored angle `f` denotes `f × 2π` radians (the source multiplies by
`2 * Math.PI` at the same spot; factoring `2π` out keeps the arithmetic in
`ℚ`). -/
structure Slice where
  type : Char
  size : Int
  angleStart : ℚ
  angleEnd : ℚ
deriving DecidableEq, Repr

/-- The slice-drawing loop of `ContainerInfocard._updateInfocard`: for each
sorted entry, `percentage = stats.size / totalSize` and
`arcLength = Math.abs(percentage) * 2 * Math.PI`; when the arc is positive a
slice `[angleStart, angleStart + arcLength)` is drawn and `angleStart`
advances, otherwise nothing is drawn.  When `totalSize = 0` every entry's
size is 0 (the total sums absolute values), JS computes `0/0 = NaN` and the
`arcLength > 0` test fails; `ℚ` computes `0/0 = 0` and the same test fails,
so the two agree on the emitted slices. -/
def buildSlices (total : ℚ) : ℚ → List (Char × TypeStats) → List Slice
  | _, [] => []
  | angleStart, e :: rest =>
    let percentage : ℚ := (e.2.size : ℚ) / total
    let arcLength : ℚ := |percentage|
    if 0 < arcLength then
      { type := e.1, size := e.2.size
        angleStart := angleStart, angleEnd := angleStart + arcLength } ::
        buildSlices total (angleStart + arcLength) rest
    else
      buildSlices total angleStart rest

/-- All pie slices drawn by one `_updateInfocard(containerNode)` call, in
drawing order. -/
def containerSlices (childStats : List (Char × TypeStats)) : List Slice :=
  buildSlices ((totalSize (statsEntries childStats) : ℚ)) 0 (statsEntries childStats)

/-- The breakdown-table rows left visible by one `_updateInfocard` call, in
table order: `_updateBreakdownRow` removes a row when its stats are `null` or
its size is 0 and re-appends it otherwise, and the trailing loop removes
every row whose type does not occur in `childStats`. -/
def visibleRows (childStats : List (Char × TypeStats)) : List Char :=
  (statsEntries childStats).filterMap
    (fun e => if e.2.size = 0 then none else some e.1)

/-- The slices start exactly where the accumulator says and follow each other
without gaps: the head starts at `a` and the tail is contiguous from the
head's end. -/
def contiguousFrom (a : ℚ) : List Slice → Prop
  | [] => True
  | sl :: rest => sl.angleStart = a ∧ contiguousFrom sl.angleEnd rest

/-! ## Embedding of the page state module (`_makeSizeTextGetter`) -/

/-- The slice of `TreeNode` that `getSizeContents` reads. -/
structure TreeNode where
  size : Int
deriving DecidableEq, Repr

/-- `getSizeContents` from the state module, reduced to the byte `value` it
computes; the locale-formatted description string and the DOM fragment built
from the same `bytes` are presentation and are not modelled.  The first
branch reads `bytes = node.size` with the gzip lookup commented out
(`// TODO: = node.gzipSize`). -/
def getSizeContents (stateHasGzip : Bool) (node : TreeNode) : Int :=
  if stateHasGzip then
    node.size
  else
    node.size

/-- `_SIZE_CHANGE_CUTOFF` from `_makeSizeTextGetter`. -/
def _SIZE_CHANGE_CUTOFF : Int := 50000

/-- The `classList` state of a size element, restricted to the two classes
`setSizeClasses` touches. -/
structure SizeClassList where
  shrunk : Bool
  grew : Bool
deriving DecidableEq, Repr

/-- `setSizeClasses(sizeElement, value)` from the state module, acting on the
element's class list.  `shouldHaveStyle` is
`state.has('diff_mode') && Math.abs(value) > _SIZE_CHANGE_CUTOFF`. -/
def setSizeClasses (diffMode : Bool) (value : Int) (cl : SizeClassList) : SizeClassList :=
  let shouldHaveStyle := diffMode && decide (_SIZE_CHANGE_CUTOFF < |value|)
  if shouldHaveStyle then
    if value < 0 then
      { cl with shrunk := true, grew := false }
    else
      { cl with shrunk := false, grew := true }
  else
    { cl with shrunk := false, grew := false }

/-! ## Helper lemmas -/

theorem lastIndexOfAux_not_mem (c : Char) :
    ∀ (l : List Char) (i : Nat) (acc : Int), c ∉ l → lastIndexOfAux c l i acc = acc := by
  intro l
  induction l with
  | nil => intro i acc _; rfl
  | cons x rest ih =>
    intro i acc h
    rw [List.mem_cons, not_or] at h
    have hx : ¬ x = c := fun hxc => h.1 hxc.symm
    simp only [lastIndexOfAux, if_neg hx]
    exact ih (i + 1) acc h.2

theorem basename_of_no_slash (p : List Char) (h : '/' ∉ p) : basename p = p := by
  unfold basename lastIndexOf substringFrom
  rw [lastIndexOfAux_not_mem '/' p 0 (-1) h]
  rfl

theorem transformChanges_entry_shape (changes : BuildChanges) (e : FileEntry)
    (he : e ∈ (transformChanges changes).2) :
    e.s.length = 1 ∧ e.s.map SymbolData.n = [basename e.p] := by
  simp only [transformChanges, List.mem_append, List.mem_map] at he
  rcases he with ((⟨d, _, rfl⟩ | ⟨d, _, rfl⟩) | ⟨d, _, rfl⟩) | ⟨d, _, rfl⟩ <;>
    simp [newEntry, deletedEntry, sameEntry, changedEntry]

/-! ## Claims -/

/-- C8: `getSizeContents` returns a value based on `node.size` regardless of
whether the `gzip` state flag is set — the gzip branch falls through to the
uncompressed size, so two runs differing only in the gzip flag produce the
same byte value. -/
theorem C8_getSizeContents_ignores_gzip (g₁ g₂ : Bool) (node : TreeNode) :
    getSizeContents g₁ node = getSizeContents g₂ node ∧
    getSizeContents g₁ node = node.size := by
  cases g₁ <;> cases g₂ <;> simp [getSizeContents]

/-- C9: every record emitted by `transformChanges` has an `s` list of exactly
one element whose display name `n` is `basename` of the record's path `p`
(the substring after the last `/`), and `basename` returns the whole path
when it contains no `/`. -/
theorem C9_record_name_is_basename (changes : BuildChanges) (e : FileEntry)
    (he : e ∈ (transformChanges changes).2) :
    e.s.length = 1 ∧ e.s.map SymbolData.n = [basename e.p] ∧
    (∀ p : List Char, '/' ∉ p → basename p = p) :=
  ⟨(transformChanges_entry_shape changes e he).1,
   (transformChanges_entry_shape changes e he).2,
   basename_of_no_slash⟩

/-- C9 witness: the shape property instantiated on the record emitted for a
single added file with path `dist/app.js`. -/
theorem C9_record_name_is_basename_witness :
    (newEntry ⟨"dist/app.js".toList, 10, 5⟩).s.length = 1 ∧
    (newEntry ⟨"dist/app.js".toList, 10, 5⟩).s.map SymbolData.n =
      [basename (newEntry ⟨"dist/app.js".toList, 10, 5⟩).p] ∧
    (∀ p : List Char, '/' ∉ p → basename p = p) :=
  C9_record_name_is_basename ⟨[⟨"dist/app.js".toList, 10, 5⟩], [], [], []⟩
    (newEntry ⟨"dist/app.js".toList, 10, 5⟩)
    (by simp [transformChanges])

/-- C10: `setSizeClasses` marks the element as changed only when the
`diff_mode` flag is set and `|value|` exceeds the 50000-byte cutoff, adding
`shrunk` (and removing `grew`) for negative values and `grew` (removing
`shrunk`) otherwise; in every other case both classes are removed. -/
theorem C10_setSizeClasses_spec (diffMode : Bool) (value : Int) (cl : SizeClassList) :
    ((setSizeClasses diffMode value cl).shrunk = true ↔
      diffMode = true ∧ _SIZE_CHANGE_CUTOFF < |value| ∧ value < 0) ∧
    ((setSizeClasses diffMode value cl).grew = true ↔
      diffMode = true ∧ _SIZE_CHANGE_CUTOFF < |value| ∧ 0 ≤ value) := by
  cases diffMode <;>
    by_cases hc : _SIZE_CHANGE_CUTOFF < |value| <;>
      by_cases hv : value < 0 <;>
        simp [setSizeClasses, hc, hv] <;> omega

/-- C2: for every changed pair `(old, new)` the emitted record takes its path
and display name from the new record and carries `b = new.size - old.size`,
`g = new.gzipSize - old.gzipSize`, `u = +1`; in particular
`old = {size: 100, gzip: 40}`, `new = {size: 150, gzip: 40}` yields `b = 50`,
`g = 0`. -/
theorem C2_changed_pair_delta (changes : BuildChanges) (oldData newData : FileData)
    (h : (oldData, newData) ∈ changes.changedItems) :
    changedEntry (oldData, newData) ∈ (transformChanges changes).2 ∧
    (changedEntry (oldData, newData)).p = newData.path ∧
    (changedEntry (oldData, newData)).s.map SymbolData.n = [basename newData.path] ∧
    (changedEntry (oldData, newData)).s.map SymbolData.b = [newData.size - oldData.size] ∧
    (changedEntry (oldData, newData)).s.map SymbolData.g = [newData.gzipSize - oldData.gzipSize] ∧
    (changedEntry (oldData, newData)).s.map SymbolData.u = [1] ∧
    (oldData.size = 100 → oldData.gzipSize = 40 → newData.size = 150 → newData.gzipSize = 40 →
      (changedEntry (oldData, newData)).s.map SymbolData.b = [50] ∧
      (changedEntry (oldData, newData)).s.map SymbolData.g = [0]) := by
  refine ⟨?_, rfl, rfl, rfl, rfl, rfl, ?_⟩
  · simp only [transformChanges, List.mem_append, List.mem_map]
    exact Or.inr ⟨(oldData, newData), h, rfl⟩
  · intro h₁ h₂ h₃ h₄
    simp [changedEntry, h₁, h₂, h₃, h₄]

/-- C2 witness: the changed-pair property instantiated on the spec's concrete
pair `{size: 100, gzip: 40} → {size: 150, gzip: 40}`. -/
theorem C2_changed_pair_delta_witness :
    changedEntry (⟨"app.js".toList, 100, 40⟩, ⟨"app.js".toList, 150, 40⟩) ∈
      (transformChanges ⟨[], [], [],
        [(⟨"app.js".toList, 100, 40⟩, ⟨"app.js".toList, 150, 40⟩)]⟩).2 ∧
    (changedEntry (⟨"app.js".toList, 100, 40⟩, ⟨"app.js".toList, 150, 40⟩)).s.map SymbolData.b =
      [50] ∧
    (changedEntry (⟨"app.js".toList, 100, 40⟩, ⟨"app.js".toList, 150, 40⟩)).s.map SymbolData.g =
      [0] := by
  have h := C2_changed_pair_delta
    ⟨[], [], [], [(⟨"app.js".toList, 100, 40⟩, ⟨"app.js".toList, 150, 40⟩)]⟩
    ⟨"app.js".toList, 100, 40⟩ ⟨"app.js".toList, 150, 40⟩ (by simp)
  exact ⟨h.1, (h.2.2.2.2.2.2 rfl rfl rfl rfl).1, (h.2.2.2.2.2.2 rfl rfl rfl rfl).2⟩

/-- C3: an added file emits `b = +size`, `g = +gzipSize`, `u = +1`; a removed
file emits `b = -size`, `g = -gzipSize`, `u = -1`; an unchanged file emits
`b = 0`, `g = 0`, `u = +1`. -/
theorem C3_group_record_signs (changes : BuildChanges) (f : FileData) :
    (f ∈ changes.newItems →
      newEntry f ∈ (transformChanges changes).2 ∧
      (newEntry f).s.map SymbolData.b = [f.size] ∧
      (newEntry f).s.map SymbolData.g = [f.gzipSize] ∧
      (newEntry f).s.map SymbolData.u = [1]) ∧
    (f ∈ changes.deletedItems →
      deletedEntry f ∈ (transformChanges changes).2 ∧
      (deletedEntry f).s.map SymbolData.b = [-f.size] ∧
      (deletedEntry f).s.map SymbolData.g = [-f.gzipSize] ∧
      (deletedEntry f).s.map SymbolData.u = [-1]) ∧
    (f ∈ changes.sameItems →
      sameEntry f ∈ (transformChanges changes).2 ∧
      (sameEntry f).s.map SymbolData.b = [0] ∧
      (sameEntry f).s.map SymbolData.g = [0] ∧
      (sameEntry f).s.map SymbolData.u = [1]) := by
  refine ⟨fun h => ⟨?_, rfl, rfl, rfl⟩, fun h => ⟨?_, rfl, rfl, rfl⟩,
    fun h => ⟨?_, rfl, rfl, rfl⟩⟩
  · simp only [transformChanges, List.mem_append, List.mem_map]
    exact Or.inl (Or.inl (Or.inl ⟨f, h, rfl⟩))
  · simp only [transformChanges, List.mem_append, List.mem_map]
    exact Or.inl (Or.inl (Or.inr ⟨f, h, rfl⟩))
  · simp only [transformChanges, List.mem_append, List.mem_map]
    exact Or.inl (Or.inr ⟨f, h, rfl⟩)

/-- C3 witness: the three sign rules instantiated on one build-changes value
holding the spec's `{size: 200, gzip: 80}` file in each of the three
single-file groups. -/
theorem C3_group_record_signs_witness :
    (newEntry ⟨"a.js".toList, 200, 80⟩ ∈
        (transformChanges ⟨[⟨"a.js".toList, 200, 80⟩], [⟨"b.js".toList, 200, 80⟩],
          [⟨"c.js".toList, 200, 80⟩], []⟩).2 ∧
      (newEntry ⟨"a.js".toList, 200, 80⟩).s.map SymbolData.b = [200] ∧
      (newEntry ⟨"a.js".toList, 200, 80⟩).s.map SymbolData.g = [80] ∧
      (newEntry ⟨"a.js".toList, 200, 80⟩).s.map SymbolData.u = [1]) ∧
    (deletedEntry ⟨"b.js".toList, 200, 80⟩ ∈
        (transformChanges ⟨[⟨"a.js".toList, 200, 80⟩], [⟨"b.js".toList, 200, 80⟩],
          [⟨"c.js".toList, 200, 80⟩], []⟩).2 ∧
      (deletedEntry ⟨"b.js".toList, 200, 80⟩).s.map SymbolData.b = [-200] ∧
      (deletedEntry ⟨"b.js".toList, 200, 80⟩).s.map SymbolData.g = [-80] ∧
      (deletedEntry ⟨"b.js".toList, 200, 80⟩).s.map SymbolData.u = [-1]) ∧
    (sameEntry ⟨"c.js".toList, 200, 80⟩ ∈
        (transformChanges ⟨[⟨"a.js".toList, 200, 80⟩], [⟨"b.js".toList, 200, 80⟩],
          [⟨"c.js".toList, 200, 80⟩], []⟩).2 ∧
      (sameEntry ⟨"c.js".toList, 200, 80⟩).s.map SymbolData.b = [0] ∧
      (sameEntry ⟨"c.js".toList, 200, 80⟩).s.map SymbolData.g = [0] ∧
      (sameEntry ⟨"c.js".toList, 200, 80⟩).s.map SymbolData.u = [1]) :=
  ⟨(C3_group_record_signs ⟨[⟨"a.js".toList, 200, 80⟩], [⟨"b.js".toList, 200, 80⟩],
      [⟨"c.js".toList, 200, 80⟩], []⟩ ⟨"a.js".toList, 200, 80⟩).1 (by simp),
   (C3_group_record_signs ⟨[⟨"a.js".toList, 200, 80⟩], [⟨"b.js".toList, 200, 80⟩],
      [⟨"c.js".toList, 200, 80⟩], []⟩ ⟨"b.js".toList, 200, 80⟩).2.1 (by simp),
   (C3_group_record_signs ⟨[⟨"a.js".toList, 200, 80⟩], [⟨"b.js".toList, 200, 80⟩],
      [⟨"c.js".toList, 200, 80⟩], []⟩ ⟨"c.js".toList, 200, 80⟩).2.2 (by simp)⟩

/-- C1: whenever two build infos are available, the stream yields a header
first, the header's `total` is the sum of the four group sizes, the header's
`diff_mode` flag is true, and exactly `total` records follow the header. -/
theorem C1_header_total_and_order (β : Type) (cur prev : β) (rest : List β)
    (getChanges : β → β → BuildChanges) :
    ∃ (m : Meta) (records : List StreamItem),
      newlineDelimtedJsonStream (cur :: prev :: rest) getChanges =
        .ok (StreamItem.header m :: records) ∧
      (∀ x ∈ records, ∃ e, x = StreamItem.record e) ∧
      records.length = m.total ∧
      m.diff_mode = true ∧
      m.total =
        (getChanges prev cur).newItems.length +
        (getChanges prev cur).deletedItems.length +
        (getChanges prev cur).sameItems.length +
        (getChanges prev cur).changedItems.length := by
  refine ⟨(transformChanges (getChanges prev cur)).1,
    (transformChanges (getChanges prev cur)).2.map StreamItem.record, rfl, ?_, ?_, rfl, rfl⟩
  · intro x hx
    rcases List.mem_map.mp hx with ⟨e, _, rfl⟩
    exact ⟨e, rfl⟩
  · simp only [transformChanges, List.length_map, List.length_append]

/-- C4: when the resolver hands back fewer than two builds, the stream fails
(with the thrown not-found error) and yields no header and no record: the
result is an `Except.error` and is never `Except.ok`.  The embedding is a
pure single evaluation, so no retry occurs. -/
theorem C4_missing_build_fails_early (β : Type) (buildInfos : List β)
    (getChanges : β → β → BuildChanges) (h : buildInfos.length < 2) :
    (∃ msg, newlineDelimtedJsonStream buildInfos getChanges = .error msg) ∧
    (∀ items, newlineDelimtedJsonStream buildInfos getChanges ≠ .ok items) := by
  match buildInfos, h with
  | [], _ =>
    exact ⟨⟨"Couldn't find previous build info".toList, rfl⟩, fun items => by
      simp [newlineDelimtedJsonStream]⟩
  | [x], _ =>
    exact ⟨⟨"Couldn't find previous build info".toList, rfl⟩, fun items => by
      simp [newlineDelimtedJsonStream]⟩

/-- C4 witness: the failure property instantiated on an empty build list. -/
theorem C4_missing_build_fails_early_witness :
    (([] : List Unit).length < 2) ∧
    ((∃ msg, newlineDelimtedJsonStream ([] : List Unit) (fun _ _ => ⟨[], [], [], []⟩) =
        .error msg) ∧
      (∀ items, newlineDelimtedJsonStream ([] : List Unit) (fun _ _ => ⟨[], [], [], []⟩) ≠
        .ok items)) :=
  ⟨by decide, C4_missing_build_fails_early Unit [] (fun _ _ => ⟨[], [], [], []⟩) (by decide)⟩

theorem buildSlices_nil (T a : ℚ) : buildSlices T a [] = [] := rfl

theorem buildSlices_cons (T a : ℚ) (e : Char × TypeStats) (rest : List (Char × TypeStats)) :
    buildSlices T a (e :: rest) =
      if 0 < |(e.2.size : ℚ) / T| then
        { type := e.1, size := e.2.size, angleStart := a,
          angleEnd := a + |(e.2.size : ℚ) / T| } ::
          buildSlices T (a + |(e.2.size : ℚ) / T|) rest
      else
        buildSlices T a rest := rfl

theorem buildSlices_contiguous (T : ℚ) :
    ∀ (l : List (Char × TypeStats)) (a : ℚ), contiguousFrom a (buildSlices T a l) := by
  intro l
  induction l with
  | nil => intro a; exact trivial
  | cons e rest ih =>
    intro a
    rw [buildSlices_cons]
    by_cases h : 0 < |(e.2.size : ℚ) / T|
    · rw [if_pos h]
      exact ⟨rfl, ih _⟩
    · rw [if_neg h]
      exact ih a

theorem buildSlices_arc (T : ℚ) :
    ∀ (l : List (Char × TypeStats)) (a : ℚ) (sl : Slice), sl ∈ buildSlices T a l →
      sl.angleEnd = sl.angleStart + |(sl.size : ℚ) / T| := by
  intro l
  induction l with
  | nil => intro a sl h; simp [buildSlices_nil] at h
  | cons e rest ih =>
    intro a sl h
    rw [buildSlices_cons] at h
    by_cases hc : 0 < |(e.2.size : ℚ) / T|
    · rw [if_pos hc, List.mem_cons] at h
      rcases h with rfl | h
      · rfl
      · exact ih _ sl h
    · rw [if_neg hc] at h
      exact ih a sl h

theorem buildSlices_start_le (T : ℚ) :
    ∀ (l : List (Char × TypeStats)) (a : ℚ) (sl : Slice), sl ∈ buildSlices T a l →
      a ≤ sl.angleStart := by
  intro l
  induction l with
  | nil => intro a sl h; simp [buildSlices_nil] at h
  | cons e rest ih =>
    intro a sl h
    rw [buildSlices_cons] at h
    by_cases hc : 0 < |(e.2.size : ℚ) / T|
    · rw [if_pos hc, List.mem_cons] at h
      rcases h with rfl | h
      · exact le_refl a
      · exact le_trans (le_add_of_nonneg_right (abs_nonneg _)) (ih _ sl h)
    · rw [if_neg hc] at h
      exact ih a sl h

theorem buildSlices_starts_mono (T : ℚ) :
    ∀ (l : List (Char × TypeStats)) (a : ℚ),
      List.Pairwise (fun s t : Slice => s.angleStart ≤ t.angleStart) (buildSlices T a l) := by
  intro l
  induction l with
  | nil => intro a; rw [buildSlices_nil]; exact List.Pairwise.nil
  | cons e rest ih =>
    intro a
    rw [buildSlices_cons]
    by_cases hc : 0 < |(e.2.size : ℚ) / T|
    · rw [if_pos hc]
      refine List.Pairwise.cons ?_ (ih _)
      intro t ht
      exact le_trans (le_add_of_nonneg_right (abs_nonneg _)) (buildSlices_start_le T rest _ t ht)
    · rw [if_neg hc]
      exact ih a

theorem buildSlices_sizes_sublist (T : ℚ) :
    ∀ (l : List (Char × TypeStats)) (a : ℚ),
      ((buildSlices T a l).map Slice.size).Sublist (l.map (fun e => e.2.size)) := by
  intro l
  induction l with
  | nil => intro a; rw [buildSlices_nil]; exact List.Sublist.refl []
  | cons e rest ih =>
    intro a
    rw [buildSlices_cons]
    by_cases hc : 0 < |(e.2.size : ℚ) / T|
    · rw [if_pos hc, List.map_cons, List.map_cons]
      exact List.Sublist.cons₂ _ (ih _)
    · rw [if_neg hc, List.map_cons]
      exact List.Sublist.cons _ (ih a)

theorem buildSlices_end_le (T : ℚ) :
    ∀ (l : List (Char × TypeStats)) (a : ℚ) (sl : Slice), sl ∈ buildSlices T a l →
      sl.angleEnd ≤ a + (l.map (fun e => |(e.2.size : ℚ) / T|)).sum := by
  intro l
  induction l with
  | nil => intro a sl h; simp [buildSlices_nil] at h
  | cons e rest ih =>
    intro a sl h
    rw [buildSlices_cons] at h
    rw [List.map_cons, List.sum_cons]
    have hrest : (0 : ℚ) ≤ (rest.map (fun e => |(e.2.size : ℚ) / T|)).sum :=
      List.sum_nonneg (by
        intro x hx
        rcases List.mem_map.mp hx with ⟨y, _, rfl⟩
        exact abs_nonneg _)
    by_cases hc : 0 < |(e.2.size : ℚ) / T|
    · rw [if_pos hc, List.mem_cons] at h
      rcases h with rfl | h
      · simp only
        linarith
      · have := ih (a + |(e.2.size : ℚ) / T|) sl h
        linarith
    · rw [if_neg hc] at h
      have := ih a sl h
      have habs : (0 : ℚ) ≤ |(e.2.size : ℚ) / T| := abs_nonneg _
      linarith

theorem totalSize_go :
    ∀ (l : List (Char × TypeStats)) (a : Int),
      List.foldl (fun acc e => acc + |e.2.size|) a l = a + totalSize l := by
  intro l
  induction l with
  | nil => intro a; simp [totalSize]
  | cons e rest ih =>
    intro a
    show List.foldl _ (a + |e.2.size|) rest = a + totalSize (e :: rest)
    rw [ih]
    show a + |e.2.size| + totalSize rest = a + List.foldl _ ((0 : Int) + |e.2.size|) rest
    rw [ih]
    omega

theorem totalSize_cons (e : Char × TypeStats) (l : List (Char × TypeStats)) :
    totalSize (e :: l) = |e.2.size| + totalSize l := by
  show List.foldl _ ((0 : Int) + |e.2.size|) l = _
  rw [totalSize_go]
  omega

theorem totalSize_nonneg : ∀ (l : List (Char × TypeStats)), 0 ≤ totalSize l := by
  intro l
  induction l with
  | nil => exact le_refl 0
  | cons e rest ih =>
    rw [totalSize_cons]
    have := abs_nonneg e.2.size
    omega

theorem sum_abs_div_totalSize (T : ℚ) (hT : 0 ≤ T) :
    ∀ (l : List (Char × TypeStats)),
      (l.map (fun e => |(e.2.size : ℚ) / T|)).sum = ((totalSize l : Int) : ℚ) / T := by
  intro l
  induction l with
  | nil => simp [totalSize]
  | cons e rest ih =>
    rw [List.map_cons, List.sum_cons, ih, totalSize_cons, abs_div, abs_of_nonneg hT]
    push_cast
    rw [div_add_div_same]

theorem statsEntries_sorted (childStats : List (Char × TypeStats)) :
    List.Pairwise (fun a b : Char × TypeStats => b.2.size ≤ a.2.size)
      (statsEntries childStats) := by
  have h := @List.sorted_mergeSort (Char × TypeStats)
    (fun a b => decide (b.2.size ≤ a.2.size))
    (by intro a b c hab hbc
        simp only [decide_eq_true_eq] at *
        omega)
    (by intro a b
        simp only [Bool.or_eq_true, decide_eq_true_eq]
        omega)
    childStats
  simpa [statsEntries] using h

theorem statsEntries_perm (childStats : List (Char × TypeStats)) :
    (statsEntries childStats).Perm childStats :=
  List.mergeSort_perm childStats _

theorem containerSlices_sizes_desc (childStats : List (Char × TypeStats)) :
    List.Pairwise (fun s t : Slice => t.size ≤ s.size) (containerSlices childStats) := by
  have hsorted := statsEntries_sorted childStats
  have hmap : List.Pairwise (fun x y : Int => y ≤ x)
      ((statsEntries childStats).map (fun e => e.2.size)) :=
    List.pairwise_map.mpr hsorted
  have hsub := buildSlices_sizes_sublist
    ((totalSize (statsEntries childStats) : Int) : ℚ) (statsEntries childStats) 0
  exact List.pairwise_map.mp (List.Pairwise.sublist hsub hmap)

theorem mem_visibleRows (childStats : List (Char × TypeStats)) (t : Char) :
    t ∈ visibleRows childStats ↔ ∃ s : TypeStats, (t, s) ∈ childStats ∧ s.size ≠ 0 := by
  unfold visibleRows
  rw [List.mem_filterMap]
  constructor
  · rintro ⟨⟨t', s⟩, he, hfe⟩
    by_cases h : s.size = 0
    · simp [h] at hfe
    · simp only [h, if_neg, ite_eq_right_iff, Option.some.injEq] at hfe
      rcases Option.some.inj hfe with rfl
      exact ⟨s, (statsEntries_perm childStats).mem_iff.mp he, h⟩
  · rintro ⟨s, hs, hne⟩
    exact ⟨(t, s), (statsEntries_perm childStats).mem_iff.mpr hs, by simp [hne]⟩

theorem containerSlices_end_le_one (childStats : List (Char × TypeStats)) :
    ∀ sl ∈ containerSlices childStats, sl.angleEnd ≤ 1 := by
  intro sl hsl
  have hT : (0 : ℚ) ≤ ((totalSize (statsEntries childStats) : Int) : ℚ) := by
    exact_mod_cast totalSize_nonneg (statsEntries childStats)
  have h1 := buildSlices_end_le ((totalSize (statsEntries childStats) : Int) : ℚ)
    (statsEntries childStats) 0 sl hsl
  rw [sum_abs_div_totalSize _ hT] at h1
  rcases eq_or_ne ((totalSize (statsEntries childStats) : Int) : ℚ) 0 with h0 | h0
  · rw [h0] at h1
    simp only [div_zero, add_zero, zero_add] at h1
    linarith
  · rw [div_self h0] at h1
    linarith

/-- C5 counterexample: with `childStats = {t: {size: -300}, r: {size: 100}}`
(reachable in differential mode, where type sizes are signed) the comparator
`b[1].size - a[1].size` sorts by descending *signed* size, so the `r` slice
(absolute size 100) is drawn before the `t` slice (absolute size 300): the
slices are not in descending order of absolute size, refuting the claim as
stated. -/
theorem C5_container_layout_counterexample :
    containerSlices [('t', ⟨-300, 1⟩), ('r', ⟨100, 1⟩)] =
      [⟨'r', 100, 0, 1 / 4⟩, ⟨'t', -300, 1 / 4, 1⟩] ∧
    ¬ List.Pairwise (fun s t : Slice => |t.size| ≤ |s.size|)
      (containerSlices [('t', ⟨-300, 1⟩), ('r', ⟨100, 1⟩)]) := by
  have hs : statsEntries [('t', ⟨-300, 1⟩), ('r', ⟨100, 1⟩)] =
      [('r', ⟨100, 1⟩), ('t', ⟨-300, 1⟩)] := by
    simp [statsEntries, List.mergeSort]
  have ht : totalSize [('r', (⟨100, 1⟩ : TypeStats)), ('t', ⟨-300, 1⟩)] = 400 := by
    norm_num [totalSize]
  have hc : containerSlices [('t', ⟨-300, 1⟩), ('r', ⟨100, 1⟩)] =
      [⟨'r', 100, 0, 1 / 4⟩, ⟨'t', -300, 1 / 4, 1⟩] := by
    unfold containerSlices
    rw [hs, ht]
    rw [buildSlices_cons, buildSlices_cons]
    norm_num [buildSlices_nil, abs_of_nonneg]
  refine ⟨hc, ?_⟩
  rw [hc]
  intro hp
  have h12 := (List.pairwise_cons.mp hp).1 ⟨'t', -300, 1 / 4, 1⟩ (by simp)
  norm_num at h12

/-- C5 (amended): during a container-infocard update the pie slices are
placed contiguously starting at angle 0 in descending order of the types'
**signed** sizes (the comparator is `b[1].size - a[1].size`, not a comparison
of absolute sizes — the two agree only when no size is negative), each slice
occupies `2π × |percentage|` radians where `percentage = size / totalSize`,
and every row whose size is zero is hidden (removed from the table). -/
theorem C5_container_layout (childStats : List (Char × TypeStats))
    (hkeys : (childStats.map Prod.fst).Nodup) :
    contiguousFrom 0 (containerSlices childStats) ∧
    List.Pairwise (fun s t : Slice => t.size ≤ s.size) (containerSlices childStats) ∧
    (∀ sl ∈ containerSlices childStats,
      ((sl.angleEnd - sl.angleStart : ℚ) : ℝ) * (2 * Real.pi) =
        ((|(sl.size : ℚ) / ((totalSize (statsEntries childStats) : Int) : ℚ)| : ℚ) : ℝ) *
          (2 * Real.pi)) ∧
    (∀ e ∈ childStats, e.2.size = 0 → e.1 ∉ visibleRows childStats) := by
  refine ⟨buildSlices_contiguous _ _ 0, containerSlices_sizes_desc childStats, ?_, ?_⟩
  · intro sl hsl
    have h2 : sl.angleEnd - sl.angleStart =
        |(sl.size : ℚ) / ((totalSize (statsEntries childStats) : Int) : ℚ)| := by
      rw [buildSlices_arc _ _ 0 sl hsl]
      ring
    rw [h2]
  · intro e he h0 hmem
    rcases (mem_visibleRows childStats e.1).mp hmem with ⟨s', hs', hne⟩
    have heq : e = (e.1, s') := List.inj_on_of_nodup_map hkeys he hs' rfl
    have h2 : e.2 = s' := by rw [heq]
    exact hne (h2 ▸ h0)

/-- C5 witness: the amended layout property instantiated on
`childStats = {t: {size: 0}, r: {size: 100}}`, whose keys are distinct. -/
theorem C5_container_layout_witness :
    (([('t', (⟨0, 1⟩ : TypeStats)), ('r', ⟨100, 1⟩)].map Prod.fst).Nodup) ∧
    (contiguousFrom 0 (containerSlices [('t', ⟨0, 1⟩), ('r', ⟨100, 1⟩)]) ∧
      List.Pairwise (fun s t : Slice => t.size ≤ s.size)
        (containerSlices [('t', ⟨0, 1⟩), ('r', ⟨100, 1⟩)]) ∧
      (∀ sl ∈ containerSlices [('t', ⟨0, 1⟩), ('r', ⟨100, 1⟩)],
        ((sl.angleEnd - sl.angleStart : ℚ) : ℝ) * (2 * Real.pi) =
          ((|(sl.size : ℚ) /
              ((totalSize (statsEntries [('t', ⟨0, 1⟩), ('r', ⟨100, 1⟩)]) : Int) : ℚ)| :
            ℚ) : ℝ) * (2 * Real.pi)) ∧
      (∀ e ∈ [('t', (⟨0, 1⟩ : TypeStats)), ('r', ⟨100, 1⟩)], e.2.size = 0 →
        e.1 ∉ visibleRows [('t', ⟨0, 1⟩), ('r', ⟨100, 1⟩)])) :=
  ⟨by decide, C5_container_layout [('t', ⟨0, 1⟩), ('r', ⟨100, 1⟩)] (by decide)⟩

/-- C6: for `childStats = {t: {size: 300, count: 1}, r: {size: 100, count: 1}}`
the computed percentages are exactly 0.75 for `t` and 0.25 for `r`, and the
accumulated slice angles sum to exactly `2π` radians. -/
theorem C6_aggregation_percentages :
    ((300 : ℚ) / ((totalSize (statsEntries [('t', ⟨300, 1⟩), ('r', ⟨100, 1⟩)]) : Int) : ℚ) =
      0.75) ∧
    ((100 : ℚ) / ((totalSize (statsEntries [('t', ⟨300, 1⟩), ('r', ⟨100, 1⟩)]) : Int) : ℚ) =
      0.25) ∧
    containerSlices [('t', ⟨300, 1⟩), ('r', ⟨100, 1⟩)] =
      [⟨'t', 300, 0, 3 / 4⟩, ⟨'r', 100, 3 / 4, 1⟩] ∧
    ((containerSlices [('t', ⟨300, 1⟩), ('r', ⟨100, 1⟩)]).map
        (fun sl => ((sl.angleEnd - sl.angleStart : ℚ) : ℝ) * (2 * Real.pi))).sum =
      2 * Real.pi := by
  have hs : statsEntries [('t', ⟨300, 1⟩), ('r', ⟨100, 1⟩)] =
      [('t', ⟨300, 1⟩), ('r', ⟨100, 1⟩)] := by
    simp [statsEntries, List.mergeSort]
  have ht : totalSize [('t', (⟨300, 1⟩ : TypeStats)), ('r', ⟨100, 1⟩)] = 400 := by
    norm_num [totalSize]
  have hc : containerSlices [('t', ⟨300, 1⟩), ('r', ⟨100, 1⟩)] =
      [⟨'t', 300, 0, 3 / 4⟩, ⟨'r', 100, 3 / 4, 1⟩] := by
    unfold containerSlices
    rw [hs, ht]
    rw [buildSlices_cons, buildSlices_cons]
    norm_num [buildSlices_nil, abs_of_nonneg]
  refine ⟨?_, ?_, hc, ?_⟩
  · rw [hs, ht]; norm_num
  · rw [hs, ht]; norm_num
  · rw [hc]
    simp only [List.map_cons, List.map_nil, List.sum_cons, List.sum_nil]
    push_cast
    ring

/-- C7: during a single container-infocard update, the slice start angle
begins at 0, slices follow each other contiguously so start angles are
monotonically non-decreasing, every slice extends forward, and no
accumulated angle ever exceeds `2π` radians. -/
theorem C7_angle_accumulation (childStats : List (Char × TypeStats)) :
    contiguousFrom 0 (containerSlices childStats) ∧
    (∀ sl ∈ containerSlices childStats, sl.angleStart ≤ sl.angleEnd) ∧
    List.Pairwise (fun s t : Slice => s.angleStart ≤ t.angleStart)
      (containerSlices childStats) ∧
    (∀ sl ∈ containerSlices childStats,
      ((sl.angleEnd : ℚ) : ℝ) * (2 * Real.pi) ≤ 2 * Real.pi) := by
  refine ⟨buildSlices_contiguous _ _ 0, ?_, buildSlices_starts_mono _ _ 0, ?_⟩
  · intro sl hsl
    rw [buildSlices_arc _ _ 0 sl hsl]
    exact le_add_of_nonneg_right (abs_nonneg _)
  · intro sl hsl
    have h1 : sl.angleEnd ≤ 1 := containerSlices_end_le_one childStats sl hsl
    have h2 : ((sl.angleEnd : ℚ) : ℝ) ≤ 1 := by exact_mod_cast h1
    calc ((sl.angleEnd : ℚ) : ℝ) * (2 * Real.pi) ≤ 1 * (2 * Real.pi) := by
          apply mul_le_mul_of_nonneg_right h2
          positivity
      _ = 2 * Real.pi := one_mul _

end SizeReport
